import Mathlib

set_option maxHeartbeats 1000000
set_option maxRecDepth 100000

/-!
Verification development for the deliverables-pusher repository.

The repository is a student-assignment helper written in Python.  This file
gives a shallow embedding of its data model and operations:

* the filesystem is a finite association list from path strings to entries
  (directories or files with string content); `os.path` operations
  (`join`, `dirname`, `exists`, `makedirs`, `open(..,"w")`) are embedded as
  executable functions on that model, with the POSIX trailing-slash
  semantics of `os.path.exists` (a path written with a trailing separator
  exists only when a directory is at the stripped name);
* fallible filesystem / library calls are `Except String` values, so a
  Python exception that propagates is an `Except.error` result while code
  wrapped in `try/except` is embedded as a total function returning the
  classified `ExecutionResult`;
* external collaborators (the test-runner subprocess, the version-control
  library/CLI) are opaque: each invocation's outcome is an input of the
  embedding (an `Eff` record, one per plan step).

Sources embedded: `agent/planner.py` (`DeliverablePlanner`),
`agent/executor.py` (module-level helpers, namespace `ExecMod`),
`agent/agent/executor.py` (class `Executor`, namespace `Executor`),
`agent/README_generator.py` (`READMEGenerator.generate_readme` and
`generate_email_draft`).
-/

/-- Decides whether `pat` occurs as a contiguous infix of `s` (character lists). -/
def hasInfixCh (s pat : List Char) : Bool :=
  match s with
  | [] => pat.isPrefixOf ([] : List Char)
  | c :: tl => pat.isPrefixOf (c :: tl) || hasInfixCh tl pat

/-- Decides whether the string `pat` occurs as a contiguous substring of `s`. -/
def strContains (s pat : String) : Bool :=
  hasInfixCh s.data pat.data

/-- ASCII lower-casing of a string, character by character (Python `str.lower`
on the ASCII fragment used by the embedded regular expressions). -/
def toLowerStr (s : String) : String :=
  ⟨s.data.map Char.toLower⟩

/-- Case-insensitive substring test: embedding of `re.search` for a `(?i)`
pattern that is a literal word. -/
def containsCI (content pat : String) : Bool :=
  strContains (toLowerStr content) (toLowerStr pat)

/-- Python `sep.join(l)`: the elements of `l` interleaved with `sep`. -/
def joinSep (sep : String) : List String → String
  | [] => ""
  | [a] => a
  | a :: rest => a ++ sep ++ joinSep sep rest

/-- Tests whether the last character of `s` is `c` (Python `s.endswith(c)`
for a one-character suffix). -/
def endsWith1 (s : String) (c : Char) : Bool :=
  s.data.getLast? == some c

/-- Tests whether `s` starts with a `/` (Python `s.startswith("/")`). -/
def headIsSlash (s : String) : Bool :=
  s.data.headD ' ' == '/'

/-- Removes every trailing `/` from a character list (Python `rstrip("/")`). -/
def rstripSlash (l : List Char) : List Char :=
  (l.reverse.dropWhile (· == '/')).reverse

/-- Removes every trailing `/` from a string (Python `s.rstrip("/")`). -/
def stripTrailSlash (s : String) : String :=
  ⟨rstripSlash s.data⟩

/-- Splits a character list at every occurrence of `sep`; the separator is
dropped and empty pieces are kept (Python `str.split(sep)` semantics:
`splitOnCh sep [] = [[]]`). -/
def splitOnCh (sep : Char) : List Char → List (List Char)
  | [] => [[]]
  | c :: r =>
    if c = sep then [] :: splitOnCh sep r
    else
      match splitOnCh sep r with
      | [] => [[c]]
      | l :: ls => (c :: l) :: ls

/-- The lines of a string, in Python `s.split("\n")` semantics. -/
def splitLinesCh (l : List Char) : List (List Char) :=
  splitOnCh '\n' l

/-- The first non-empty line of a string (empty if there is none). -/
def firstNonEmptyLine (s : String) : String :=
  ⟨((splitLinesCh s.data).find? (fun l => !l.isEmpty)).getD []⟩

/-- The line of a string at 0-based index `n` (empty if out of range). -/
def lineAt (s : String) (n : Nat) : String :=
  ⟨(splitLinesCh s.data).getD n []⟩

/-- Embedding of POSIX `os.path.join` for two components: an absolute second
component replaces the first; otherwise a single `/` separates them unless
the first is empty or already ends in `/`. -/
def osPathJoin (a b : String) : String :=
  if headIsSlash b then b
  else if a = "" ∨ endsWith1 a '/' = true then a ++ b
  else a ++ "/" ++ b

/-- Embedding of POSIX `os.path.dirname` on character lists: everything up to
the last `/`, with trailing slashes stripped unless the head is all slashes. -/
def dirnameCh (l : List Char) : List Char :=
  let head := (l.reverse.dropWhile (· != '/')).reverse
  if head.all (· == '/') then head else rstripSlash head

/-- Embedding of POSIX `os.path.dirname` on strings. -/
def dirname (p : String) : String :=
  ⟨dirnameCh p.data⟩

/-- Progressive joins of path components starting from `base`: the list of
ancestor paths `os.makedirs` creates, shortest first. -/
def prefixesFrom (base : String) : List String → List String
  | [] => []
  | c :: rest => (base ++ c) :: prefixesFrom (base ++ c ++ "/") rest

/-- The chain of ancestor directories of `p` (including `p` itself), shortest
first, as created by `os.makedirs(p)`. -/
def pathPrefixes (p : String) : List String :=
  let comps := ((splitOnCh '/' p.data).map (fun l => (⟨l⟩ : String))).filter (fun s => !s.isEmpty)
  prefixesFrom (if headIsSlash p then "/" else "") comps

/-- The decimal digit character for `n < 10` (placeholder `*` otherwise,
never reached by `natChars`). -/
def digitChar : Nat → Char
  | 0 => '0' | 1 => '1' | 2 => '2' | 3 => '3' | 4 => '4'
  | 5 => '5' | 6 => '6' | 7 => '7' | 8 => '8' | 9 => '9'
  | _ => '*'

/-- The numeric value of a decimal digit character. -/
def digitVal (c : Char) : Nat := c.toNat - 48

/-- Tests whether a character is a decimal digit. -/
def isDigCh (c : Char) : Bool := decide (48 ≤ c.toNat ∧ c.toNat ≤ 57)

/-- The decimal digits of `n`, most significant first (the characters of
Python `str(n)`). -/
def natChars (n : Nat) : List Char :=
  if n < 10 then [digitChar n]
  else natChars (n / 10) ++ [digitChar (n % 10)]
decreasing_by exact Nat.div_lt_self (by omega) (by omega)

/-- Reads a digit list back as a number (left fold, base 10). -/
def charsVal (l : List Char) : Nat :=
  l.foldl (fun a c => 10 * a + digitVal c) 0

/-- The characters of Python `f"{i:02d}"` for `i ≥ 0`: the decimal rendering
of `i`, zero-padded on the left to width 2. -/
def fmt02 (i : Nat) : List Char :=
  if i < 10 then '0' :: natChars i else natChars i

/-- The synthetic result label `f"{i:02d}_{a_type}"` used by
`Executor.execute_plan` to key the result of the `i`-th action. -/
def keyStr (i : Nat) (t : String) : String :=
  ⟨fmt02 i ++ '_' :: t.data⟩

/-- A filesystem entry: a directory or a file with its text content. -/
inductive Entry where
  | dir : Entry
  | file (content : String) : Entry
deriving DecidableEq

/-- The filesystem model: a finite association list from (slash-free) path
strings to entries. -/
abbrev FS := List (String × Entry)

/-- Looks up the entry bound to path `p` (first binding wins). -/
def fsGet : FS → String → Option Entry
  | [], _ => none
  | (q, e) :: rest, p => if q = p then some e else fsGet rest p

/-- Binds path `p` to entry `e`, replacing an existing binding in place. -/
def fsSet : FS → String → Entry → FS
  | [], p, e => [(p, e)]
  | (q, e') :: rest, p, e =>
    if q = p then (q, e) :: rest else (q, e') :: fsSet rest p e

/-- Embedding of `os.path.exists`: a path with a trailing `/` exists only
when a directory is at the stripped name; a slash-free path exists when any
entry (file or directory) is bound to it. -/
def fsExistsPath (fs : FS) (p : String) : Bool :=
  match fsGet fs (stripTrailSlash p) with
  | some .dir => true
  | some (.file _) => stripTrailSlash p == p
  | none => false

/-- One `os.mkdir(d)` step with `exist_ok=True`: creates `d` when absent,
keeps an existing directory, and fails when a file is in the way. -/
def mkdirOne (fs : FS) (d : String) : Except String FS :=
  match fsGet fs d with
  | none => .ok (fsSet fs d .dir)
  | some .dir => .ok fs
  | some (.file _) => .error ("FileExistsError: " ++ d)

/-- Embedding of `os.makedirs(p, exist_ok=True)`: creates the whole ancestor
chain of `p`, failing when an existing file blocks a component. -/
def makedirs (fs : FS) (p : String) : Except String FS :=
  (pathPrefixes p).foldlM mkdirOne fs

/-- Embedding of `open(p, "w").write(content)`: fails when `p` names a
directory (trailing slash or directory entry), otherwise (re)binds the file. -/
def writeFile (fs : FS) (p content : String) : Except String FS :=
  if endsWith1 p '/' then .error ("IsADirectoryError: " ++ p)
  else
    match fsGet fs p with
    | some .dir => .error ("IsADirectoryError: " ++ p)
    | _ => .ok (fsSet fs p (.file content))

/-- Embedding of `open(p, "r").read()`: fails when `p` is absent or names a
directory. -/
def readFile (fs : FS) (p : String) : Except String String :=
  match fsGet fs p with
  | some (.file c) => .ok c
  | some .dir => .error ("IsADirectoryError: " ++ p)
  | none => .error ("FileNotFoundError: " ++ p)

/-- Result of `DeliverablePlanner.analyze_deliverables`: the Python dict
`{"existing": existing, "missing": missing}`. -/
structure AnalysisOut where
  existing : List String
  missing : List String
deriving DecidableEq

namespace DeliverablePlanner

/-- Embedding of `DeliverablePlanner.analyze_deliverables` from
`agent/planner.py`: one pass over the required paths, appending each to
`existing` or `missing` according to `os.path.exists(os.path.join(repo, f))`. -/
def analyze_deliverables (fs : FS) (repo_path : String) : List String → AnalysisOut
  | [] => ⟨[], []⟩
  | f :: rest =>
    let r := analyze_deliverables fs repo_path rest
    if fsExistsPath fs (osPathJoin repo_path f) then ⟨f :: r.existing, r.missing⟩
    else ⟨r.existing, f :: r.missing⟩

end DeliverablePlanner

/-- Outcomes of the calls `ExecMod` functions make into the version-control
library: `.ok ()` models a normal return, `.error e` a raised exception with
text `e`. -/
structure GitEnv where
  repoOpen : Except String Unit
  addAll : Except String Unit
  commitIx : Except String Unit
  pushRemote : Except String Unit

namespace ExecMod

/-- Embedding of `validate_deliverables` from `agent/executor.py`: the list
of required paths for which `os.path.exists(os.path.join(base, f))` fails. -/
def validate_deliverables (fs : FS) (base_path : String) : List String → List String
  | [] => []
  | f :: rest =>
    if fsExistsPath fs (osPathJoin base_path f) then validate_deliverables fs base_path rest
    else f :: validate_deliverables fs base_path rest

/-- Embedding of `create_placeholder_files` from `agent/executor.py`.  For a
path ending in `/` it makes the directory and writes an empty `.gitkeep`
inside it; otherwise it makes the parent directory and writes the file with
`"# Placeholder for {f}\n"` unconditionally (the source has no existence
guard before `open(full_path, "w")`). -/
def create_placeholder_files (base_path : String) (fs : FS) : List String → Except String FS
  | [] => .ok fs
  | f :: rest => do
    let full := osPathJoin base_path f
    let fs' ←
      if endsWith1 f '/' then do
        let fs1 ← makedirs fs full
        writeFile fs1 (osPathJoin full ".gitkeep") ""
      else do
        let fs1 ← makedirs fs (dirname full)
        writeFile fs1 full ("# Placeholder for " ++ f ++ "\n")
    create_placeholder_files base_path fs' rest

/-- Embedding of module-level `git_add_all` from `agent/executor.py`:
`Repo(repo_path)` then `repo.git.add(all=True)`, with no `try/except` — a
library exception propagates to the caller as `.error`. -/
def git_add_all (g : GitEnv) : Except String Unit := do
  g.repoOpen
  g.addAll

/-- Embedding of module-level `git_commit` from `agent/executor.py`:
`Repo(repo_path)` then `repo.index.commit(message)`, with no `try/except` —
a library exception propagates to the caller as `.error`. -/
def git_commit (g : GitEnv) : Except String Unit := do
  g.repoOpen
  g.commitIx

/-- Embedding of module-level `git_push` from `agent/executor.py`: the whole
body is wrapped in `try/except Exception`, so every outcome returns normally
(a failure only prints a diagnostic). -/
def git_push (g : GitEnv) : Except String Unit :=
  match (do g.repoOpen; g.pushRemote : Except String Unit) with
  | .ok _ => .ok ()
  | .error _ => .ok ()

end ExecMod

namespace READMEGenerator

/-- Python truthiness of an optional string argument (`if how_to_run:`):
false for `None` and for the empty string. -/
def optTruthy : Option String → Bool
  | none => false
  | some s => !s.isEmpty

/-- The default how-to-run block of `generate_readme` (the source's literal
triple-quoted string, used when `how_to_run` is falsy). -/
def defaultHowToRun : String :=
  "\n## How to run (quick)\n1. Create venv and install:\n   ```bash\n   python -m venv venv\n   source venv/bin/activate\n   pip install -r agent/requirements.txt\n   ```\n\n2. Run demo:\n   ```bash\n   python agent/planner.py --repo_path /path/to/repo\n   ```\n"

/-- Embedding of `READMEGenerator.generate_readme` from
`agent/README_generator.py`: header f-string, a fold appending one
`- {deliverable}\n` bullet per item, the how-to-run block (default when the
argument is falsy), and the contact block with a placeholder email when the
argument is falsy. -/
def generate_readme (student_name university department : String)
    (deliverables : List String) (repo_url : String)
    (how_to_run contact_email : Option String) : String :=
  let readme0 :=
    "# AI Agent Prototype - Deliverables Pusher\n\n**Student:** " ++ student_name ++
      "  \n**University:** " ++ university ++ "  \n**Department:** " ++ department ++
      "  \n\n## Repository\n" ++ repo_url ++ "\n\n## Deliverables included\n"
  let readme1 := deliverables.foldl (fun acc d => acc ++ ("- " ++ d ++ "\n")) readme0
  let readme2 :=
    readme1 ++
      (if optTruthy how_to_run then "\n## How to run\n" ++ how_to_run.getD "" ++ "\n"
       else defaultHowToRun)
  let contact_info := if optTruthy contact_email then (contact_email.getD "") else "your.email@domain"
  readme2 ++ ("\n## Contact\n" ++ student_name ++ " — [" ++ contact_info ++ "](mailto:" ++ contact_info ++ ")\n")

end READMEGenerator

/-- Embedding of module-level `generate_email_draft` from
`agent/README_generator.py`: a single f-string with the recipients line
first, then the subject line, then the fixed-shape body. -/
def generate_email_draft (student_name university department repo_url : String)
    (recipient_emails deliverables : List String) : String :=
  let recipients_str := joinSep ", " recipient_emails
  let deliverables_list := joinSep "\n" (deliverables.map (fun d => "- " ++ d))
  "To: " ++ recipients_str ++
    "\nSubject: AI Agent Prototype - Deliverables submitted (" ++ student_name ++
    ")\n\nHello,\n\nI have pushed all deliverables for the AI Agent Prototype assignment to the following GitHub repository:\n" ++
    repo_url ++ "\n\nStudent: " ++ student_name ++ "\nUniversity: " ++ university ++
    "\nDepartment: " ++ department ++ "\n\nDeliverables:\n" ++ deliverables_list ++
    "\n\nPlease let me know if anything else is required.\n\nRegards,\n" ++ student_name ++ "\n"

/-- The per-action result record of `agent/agent/executor.py`
(`@dataclass ExecutionResult`). -/
structure ExecutionResult where
  success : Bool
  message : String
  details : Option (List (String × List String)) := none
deriving DecidableEq

/-- Outcome of the `subprocess.run(["python","-m","pytest","-q"], ...)` call
inside `Executor.run_tests`: either the process finished with an exit code
and combined output, or launching it raised an exception with text `e`. -/
inductive TestsOutcome where
  | finished (code : Int) (out : String)
  | raised (e : String)

/-- Outcome of one commit/push attempt inside the `Executor` class: success,
a `subprocess.CalledProcessError` from the CLI fallback, or any other
library exception. -/
inductive GitOutcome where
  | ok
  | cliError (e : String)
  | libError (e : String)

/-- The external-process outcomes available to one plan step. -/
structure Eff where
  tests : TestsOutcome
  commit : GitOutcome
  push : GitOutcome

namespace Executor

/-- Embedding of `Executor.ensure_path`: for a directory-style path it runs
`makedirs`; otherwise it makes the parent directory and writes an empty file
only when nothing exists at the path. -/
def ensure_path (fs : FS) (repoPath rel : String) (is_dir : Bool) : Except String FS :=
  if is_dir || endsWith1 rel '/' then makedirs fs (osPathJoin repoPath rel)
  else do
    let fs1 ← makedirs fs (dirname (osPathJoin repoPath rel))
    if fsExistsPath fs1 (osPathJoin repoPath rel) then pure fs1
    else writeFile fs1 (osPathJoin repoPath rel) ""

/-- The loop of `Executor.create_placeholders`: `ensure_path` per file,
collecting created names; the first exception is caught and reported as a
failure result (earlier creations are kept, no rollback). -/
def createGo (repoPath : String) (fs : FS) (acc : List String) :
    List String → ExecutionResult × FS
  | [] => (⟨true, "Placeholders ensured", some [("created", acc.reverse)]⟩, fs)
  | f :: rest =>
    match ensure_path fs repoPath f (endsWith1 f '/') with
    | .ok fs' => createGo repoPath fs' (f :: acc) rest
    | .error e => (⟨false, "Failed creating " ++ f ++ ": " ++ e, none⟩, fs)

/-- Embedding of `Executor.create_placeholders` from
`agent/agent/executor.py`. -/
def create_placeholders (repoPath : String) (fs : FS) (files : List String) :
    ExecutionResult × FS :=
  createGo repoPath fs [] files

/-- The missing-path scan of `Executor.validate_required`: keeps every
required path for which `os.path.exists(os.path.join(repo, f.rstrip("/")))`
fails. -/
def validateRequiredMissing (fs : FS) (repoPath : String) : List String → List String
  | [] => []
  | f :: rest =>
    if fsExistsPath fs (osPathJoin repoPath (stripTrailSlash f)) then
      validateRequiredMissing fs repoPath rest
    else f :: validateRequiredMissing fs repoPath rest

/-- Embedding of `Executor.validate_required` from `agent/agent/executor.py`. -/
def validate_required (fs : FS) (repoPath : String) (required_files : List String) :
    ExecutionResult :=
  ⟨(validateRequiredMissing fs repoPath required_files).isEmpty, "Validation complete",
    some [("missing", validateRequiredMissing fs repoPath required_files)]⟩

/-- The seven required README regex patterns of
`Executor.assert_readme_fields`, verbatim. -/
def required_patterns : List String :=
  ["(?i)Title|^# ", "(?i)Student|Name", "(?i)University", "(?i)Department",
   "(?i)Deliverables", "(?i)How to run|Installation", "(?i)Contact"]

/-- Embedding of `re.search(pat, content)` specialised to the seven patterns
of `assert_readme_fields`: each is a global `(?i)` alternation of literal
words, except the `^# ` branch of the first, which (without `re.M`) matches
only at the start of the string. -/
def regexSearch (pat content : String) : Bool :=
  if pat = "(?i)Title|^# " then containsCI content "Title" || ("# ".data.isPrefixOf content.data)
  else if pat = "(?i)Student|Name" then containsCI content "Student" || containsCI content "Name"
  else if pat = "(?i)University" then containsCI content "University"
  else if pat = "(?i)Department" then containsCI content "Department"
  else if pat = "(?i)Deliverables" then containsCI content "Deliverables"
  else if pat = "(?i)How to run|Installation" then containsCI content "How to run" || containsCI content "Installation"
  else if pat = "(?i)Contact" then containsCI content "Contact"
  else false

/-- The content-level core of `Executor.assert_readme_fields`: the patterns
that fail to match, and success iff none fail. -/
def readmeFieldsCheck (content : String) : ExecutionResult :=
  ⟨(required_patterns.filter (fun p => !regexSearch p content)).isEmpty,
    "README fields check",
    some [("missing_patterns", required_patterns.filter (fun p => !regexSearch p content))]⟩

/-- Embedding of `Executor.assert_readme_fields` from
`agent/agent/executor.py`: an absent README returns a failure result, but
the unguarded `open(path, "r")` propagates a read exception (`.error`). -/
def assert_readme_fields (fs : FS) (repoPath readme_path : String) :
    Except String ExecutionResult :=
  let path := osPathJoin repoPath readme_path
  if !fsExistsPath fs path then .ok ⟨false, "README not found", none⟩
  else
    match readFile fs path with
    | .ok content => .ok (readmeFieldsCheck content)
    | .error e => .error e

/-- Embedding of `Executor.run_tests` from `agent/agent/executor.py`: a
missing tests directory short-circuits to a skipped success; otherwise the
subprocess outcome is classified (exit code zero iff success; any launch
exception is caught and reported). -/
def run_tests (o : TestsOutcome) (fs : FS) (repoPath test_path : String) : ExecutionResult :=
  if !fsExistsPath fs (osPathJoin repoPath test_path) then
    ⟨true, "No tests directory found; skipping", none⟩
  else
    match o with
    | .finished code out => ⟨code == 0, "Tests executed", some [("output", [out])]⟩
    | .raised e => ⟨false, "Test run failed: " ++ e, none⟩

/-- Embedding of `Executor.git_commit` from `agent/agent/executor.py`: every
outcome of the commit attempt is caught and classified — CLI failures as
`Git CLI commit failed`, library exceptions as `GitPython commit failed`. -/
def git_commit (o : GitOutcome) : ExecutionResult :=
  match o with
  | .ok => ⟨true, "Git commit complete", none⟩
  | .cliError e => ⟨false, "Git CLI commit failed: " ++ e, none⟩
  | .libError e => ⟨false, "GitPython commit failed: " ++ e, none⟩

/-- Embedding of `Executor.git_push` from `agent/agent/executor.py`, with
the same catch-and-classify structure as `git_commit`. -/
def git_push (o : GitOutcome) : ExecutionResult :=
  match o with
  | .ok => ⟨true, "Git push complete", none⟩
  | .cliError e => ⟨false, "Git CLI push failed: " ++ e, none⟩
  | .libError e => ⟨false, "GitPython push failed: " ++ e, none⟩

/-- The `lines` list of `Executor.create_email_draft`, with the source's
default subject prefix; the recipients line, when present, is the final
element. -/
def emailLines (student_name university department repo_url : String)
    (recipients : List String) : List String :=
  ["Subject: AI Agent Prototype - Deliverables submitted (" ++ student_name ++ ")",
   "",
   "Hello,",
   "",
   "I have pushed all deliverables for the AI Agent Prototype assignment to the following GitHub repository:",
   repo_url,
   "",
   "Student: " ++ student_name,
   "University: " ++ university,
   "Department: " ++ department,
   "",
   "Deliverables included:",
   "- Source code",
   "- Agent architecture document",
   "- Data science report (fine-tuning details & evaluation)",
   "- Interaction logs",
   "- Optional: demo video/screenshots",
   "",
   "Please let me know if you need any additional information.",
   "",
   "Regards,\n" ++ student_name,
   "",
   if recipients.isEmpty then "" else "To: " ++ joinSep ", " recipients]

/-- The draft text written by `Executor.create_email_draft`
(`"\n".join(lines)`; no element is `None`, so the comprehension filter keeps
all of them). -/
def emailDraftContent (student_name university department repo_url : String)
    (recipients : List String) : String :=
  joinSep "\n" (emailLines student_name university department repo_url recipients)

/-- Embedding of `Executor.create_email_draft` from
`agent/agent/executor.py`, with the source's default output path
`email_draft.txt`: a write failure is caught and reported as a failure
result. -/
def create_email_draft (fs : FS) (repoPath student_name university department repo_url : String)
    (recipients : List String) : ExecutionResult × FS :=
  match writeFile fs (osPathJoin repoPath "email_draft.txt")
      (emailDraftContent student_name university department repo_url recipients) with
  | .ok fs' =>
    (⟨true, "Email draft created", some [("path", [osPathJoin repoPath "email_draft.txt"])]⟩, fs')
  | .error e => (⟨false, "Failed to create email draft: " ++ e, none⟩, fs)

/-- The `parameters` mapping of a plan action (`action.get("parameters", {})`
with `parameters.get("recipients", [])`). -/
structure ActionParams where
  recipients : List String
deriving DecidableEq

/-- One typed plan action (`{"type": str, "files"?: [...], "parameters"?: {...}}`,
with `action.get("files", [])` defaulting to the empty list). -/
structure Action where
  type : String
  files : List String
  parameters : ActionParams
deriving DecidableEq

/-- A plan mapping: the `actions` list plus the student metadata read by the
`generate_email` branch via `plan.get(..., "")`. -/
structure Plan where
  actions : List Action
  student_name : String
  university : String
  department : String
  repo_url : String

/-- The six action types recognised by `Executor.execute_plan`. -/
def knownActionTypes : List String :=
  ["create_missing_files", "generate_readme", "run_tests", "git_commit", "git_push",
   "generate_email"]

/-- The dispatch body of `Executor.execute_plan` for one action: the if/elif
chain on the action's type string, returning the result and the filesystem
after the action's side effects. -/
def executeAction (eff : Eff) (repoPath : String) (plan : Plan) (fs : FS) (a : Action) :
    ExecutionResult × FS :=
  if a.type = "create_missing_files" then create_placeholders repoPath fs a.files
  else if a.type = "generate_readme" then (⟨true, "README generation delegated", none⟩, fs)
  else if a.type = "run_tests" then (run_tests eff.tests fs repoPath "tests", fs)
  else if a.type = "git_commit" then (git_commit eff.commit, fs)
  else if a.type = "git_push" then (git_push eff.push, fs)
  else if a.type = "generate_email" then
    create_email_draft fs repoPath plan.student_name plan.university plan.department
      plan.repo_url a.parameters.recipients
  else (⟨false, "Unknown action: " ++ a.type, none⟩, fs)

/-- The insertion-ordered results mapping (a Python `dict` keyed by strings). -/
abbrev Dict := List (String × ExecutionResult)

/-- The keys of a results mapping, in insertion order. -/
def dictKeys (d : Dict) : List String := d.map Prod.fst

/-- Python dict assignment `d[k] = v`: replaces the value in place when the
key is present, otherwise appends the binding at the end. -/
def dictInsert (d : Dict) (k : String) (v : ExecutionResult) : Dict :=
  match d with
  | [] => [(k, v)]
  | (k', v') :: rest =>
    if k' = k then (k', v) :: rest else (k', v') :: dictInsert rest k v

/-- The `for i, action in enumerate(..., 1)` loop of `Executor.execute_plan`:
dispatches each action in turn and stores its result under the synthetic
`f"{i:02d}_{a_type}"` key. -/
def runGo (env : Nat → Eff) (repoPath : String) (plan : Plan) :
    Nat → Dict → FS → List Action → Dict × FS
  | _, dict, fs, [] => (dict, fs)
  | i, dict, fs, a :: rest =>
    let r := executeAction (env i) repoPath plan fs a
    runGo env repoPath plan (i + 1) (dictInsert dict (keyStr i a.type) r.1) r.2 rest

/-- Embedding of `Executor.execute_plan` from `agent/agent/executor.py`:
walks the plan's action list once, starting from an empty results mapping
and index 1. -/
def execute_plan (env : Nat → Eff) (repoPath : String) (fs : FS) (plan : Plan) : Dict × FS :=
  runGo env repoPath plan 1 [] fs plan.actions

/-- Modelled from the spec: the reference walk `execute_plan` is compared
with — one dispatch per action, exactly one keyed result per action appended
in input order, the filesystem threaded through regardless of failures. -/
def planResultsFrom (env : Nat → Eff) (repoPath : String) (plan : Plan) :
    Nat → FS → List Action → Dict × FS
  | _, fs, [] => ([], fs)
  | i, fs, a :: rest =>
    let r := executeAction (env i) repoPath plan fs a
    let t := planResultsFrom env repoPath plan (i + 1) r.2 rest
    ((keyStr i a.type, r.1) :: t.1, t.2)

/-- The expected key sequence for a plan's actions starting at index `i`. -/
def planKeysFrom : Nat → List Action → List String
  | _, [] => []
  | i, a :: rest => keyStr i a.type :: planKeysFrom (i + 1) rest

/-- The `missing` payload of a validation result (empty when absent). -/
def missingOf (r : ExecutionResult) : List String :=
  match r.details with
  | some [("missing", l)] => l
  | _ => []

/-- The `missing_patterns` payload of a README-check result (empty when
absent). -/
def missingPatsOf (r : ExecutionResult) : List String :=
  match r.details with
  | some [("missing_patterns", l)] => l
  | _ => []

end Executor

/-- Modelled from the spec: the per-item bullet rendering of the deliverables
list — one `- {item}\n` line per element, verbatim, in input order. -/
def renderBullets : List String → String
  | [] => ""
  | d :: rest => "- " ++ d ++ "\n" ++ renderBullets rest

/-- The fixed README text preceding the deliverables bullets in
`generate_readme`. -/
def readmeHeader (student_name university department repo_url : String) : String :=
  "# AI Agent Prototype - Deliverables Pusher\n\n**Student:** " ++ student_name ++
    "  \n**University:** " ++ university ++ "  \n**Department:** " ++ department ++
    "  \n\n## Repository\n" ++ repo_url ++ "\n\n## Deliverables included\n"

/-- The fixed README text following the deliverables bullets in
`generate_readme`. -/
def readmeTail (student_name : String) (how_to_run contact_email : Option String) : String :=
  (if READMEGenerator.optTruthy how_to_run then "\n## How to run\n" ++ how_to_run.getD "" ++ "\n"
   else READMEGenerator.defaultHowToRun) ++
    ("\n## Contact\n" ++ student_name ++ " — [" ++
      (if READMEGenerator.optTruthy contact_email then (contact_email.getD "") else "your.email@domain") ++
      "](mailto:" ++
      (if READMEGenerator.optTruthy contact_email then (contact_email.getD "") else "your.email@domain") ++
      ")\n")

/-! Helper lemmas on strings and the filesystem model. -/

theorem strData_append (a b : String) : (a ++ b).data = a.data ++ b.data := by
  cases a; cases b; rfl

theorem strAppend_assoc (a b c : String) : (a ++ b) ++ c = a ++ (b ++ c) :=
  String.ext (by simp [strData_append])

theorem strAppend_nil (a : String) : a ++ "" = a :=
  String.ext (by simp [strData_append])

theorem foldl_bullets (ds : List String) : ∀ init : String,
    ds.foldl (fun acc d => acc ++ ("- " ++ d ++ "\n")) init = init ++ renderBullets ds := by
  induction ds with
  | nil => intro init; simp [renderBullets, strAppend_nil]
  | cons d rest ih =>
    intro init
    simp only [List.foldl_cons, renderBullets, ih]
    exact strAppend_assoc _ _ _

theorem analyze_deliverables_filter :
    ∀ (fs : FS) (root : String) (req : List String),
      (DeliverablePlanner.analyze_deliverables fs root req).existing
          = req.filter (fun f => fsExistsPath fs (osPathJoin root f)) ∧
      (DeliverablePlanner.analyze_deliverables fs root req).missing
          = req.filter (fun f => !fsExistsPath fs (osPathJoin root f)) ∧
      ExecMod.validate_deliverables fs root req
          = req.filter (fun f => !fsExistsPath fs (osPathJoin root f)) := by
  intro fs root req
  induction req with
  | nil => exact ⟨rfl, rfl, rfl⟩
  | cons f rest ih =>
    simp only [DeliverablePlanner.analyze_deliverables, ExecMod.validate_deliverables,
      List.filter_cons]
    cases h : fsExistsPath fs (osPathJoin root f) <;>
      simp [h, ih.1, ih.2.1, ih.2.2]

/-- Claim C2: for every repository root and list of required relative paths,
the existence scans of `DeliverablePlanner.analyze_deliverables` and of
`validate_deliverables` return as missing exactly the inputs with no
filesystem entry at the root-joined path, and as existing exactly the
complement, both in input order. -/
theorem analyze_deliverables_missing_exactly_nonexistent :
    ∀ (fs : FS) (root : String) (req : List String),
      (DeliverablePlanner.analyze_deliverables fs root req).existing
          = req.filter (fun f => fsExistsPath fs (osPathJoin root f)) ∧
      (DeliverablePlanner.analyze_deliverables fs root req).missing
          = req.filter (fun f => !fsExistsPath fs (osPathJoin root f)) ∧
      ExecMod.validate_deliverables fs root req
          = req.filter (fun f => !fsExistsPath fs (osPathJoin root f)) :=
  analyze_deliverables_filter

/-- Claim C6: the concrete `generate_readme` scenario contains the literal
substrings the spec names, and for every deliverables list the output is the
fixed header, then exactly one `- item` bullet per element in input order
(verbatim, no deduplication or sorting), then the fixed tail. -/
theorem generate_readme_scenario_and_bullets :
    (strContains (READMEGenerator.generate_readme "A" "U" "D" ["x", "y"] "http://r" none none)
          "**Student:** A" = true ∧
      strContains (READMEGenerator.generate_readme "A" "U" "D" ["x", "y"] "http://r" none none)
          "**University:** U" = true ∧
      strContains (READMEGenerator.generate_readme "A" "U" "D" ["x", "y"] "http://r" none none)
          "- x" = true ∧
      strContains (READMEGenerator.generate_readme "A" "U" "D" ["x", "y"] "http://r" none none)
          "- y" = true ∧
      strContains (READMEGenerator.generate_readme "A" "U" "D" ["x", "y"] "http://r" none none)
          "http://r" = true) ∧
    ∀ (sn u d : String) (ds : List String) (ru : String) (h c : Option String),
      READMEGenerator.generate_readme sn u d ds ru h c
          = readmeHeader sn u d ru ++ renderBullets ds ++ readmeTail sn h c := by
  constructor
  · exact ⟨rfl, rfl, rfl, rfl, rfl⟩
  · intro sn u d ds ru h c
    simp only [READMEGenerator.generate_readme, readmeHeader, readmeTail, foldl_bullets]
    exact strAppend_assoc _ _ _

/-- Claim C5: a README string matching all seven required patterns makes
`readmeFieldsCheck` (the content-level core of `assert_readme_fields`)
succeed with an empty missing-pattern list; a string failing any one pattern
(for example, one with that section marker removed) yields `success = false`
with that pattern in `missing_patterns`; and `assert_readme_fields` returns
exactly this check on the README file's content. -/
theorem readme_fields_check_pattern_logic :
    (∀ content, (∀ p ∈ Executor.required_patterns, Executor.regexSearch p content = true) →
        Executor.readmeFieldsCheck content
          = ⟨true, "README fields check", some [("missing_patterns", [])]⟩) ∧
    (∀ content p, p ∈ Executor.required_patterns → Executor.regexSearch p content = false →
        (Executor.readmeFieldsCheck content).success = false ∧
        p ∈ Executor.missingPatsOf (Executor.readmeFieldsCheck content)) ∧
    (∀ (fs : FS) (repo : String) (c : String),
        fsExistsPath fs (osPathJoin repo "README.md") = true →
        readFile fs (osPathJoin repo "README.md") = .ok c →
        Executor.assert_readme_fields fs repo "README.md" = .ok (Executor.readmeFieldsCheck c)) := by
  refine ⟨?_, ?_, ?_⟩
  · intro content hall
    have hfil : Executor.required_patterns.filter (fun p => !Executor.regexSearch p content) = [] := by
      rw [List.filter_eq_nil_iff]
      intro p hp
      simp [hall p hp]
    simp [Executor.readmeFieldsCheck, hfil]
  · intro content p hp hf
    have hmem : p ∈ Executor.required_patterns.filter (fun p => !Executor.regexSearch p content) := by
      rw [List.mem_filter]
      exact ⟨hp, by simp [hf]⟩
    have hne : Executor.required_patterns.filter (fun p => !Executor.regexSearch p content) ≠ [] :=
      List.ne_nil_of_mem hmem
    constructor
    · simp [Executor.readmeFieldsCheck, List.isEmpty_iff, hne]
    · show p ∈ Executor.required_patterns.filter (fun p => !Executor.regexSearch p content)
      exact hmem
  · intro fs repo c hex hread
    simp [Executor.assert_readme_fields, hex, hread]

/-- Witness for C5: a README containing all seven markers passes with no
missing patterns; removing the contact marker fails the contact pattern,
which is then reported; and `assert_readme_fields` on a concrete filesystem
reduces to the content-level check. -/
theorem readme_fields_check_pattern_logic_witness :
    (Executor.readmeFieldsCheck
        "# Title Student University Department Deliverables How to run Contact"
      = ⟨true, "README fields check", some [("missing_patterns", [])]⟩) ∧
    ((Executor.readmeFieldsCheck
          "# Title Student University Department Deliverables How to run").success = false ∧
      "(?i)Contact" ∈ Executor.missingPatsOf (Executor.readmeFieldsCheck
          "# Title Student University Department Deliverables How to run")) ∧
    (Executor.assert_readme_fields [("/r/README.md", Entry.file "hi")] "/r" "README.md"
      = .ok (Executor.readmeFieldsCheck "hi")) :=
  ⟨readme_fields_check_pattern_logic.1 _ (by decide),
   readme_fields_check_pattern_logic.2.1 _ "(?i)Contact" (by decide) (by decide),
   readme_fields_check_pattern_logic.2.2 _ "/r" _ (by decide) rfl⟩

/-- Claim C8: for every action whose type is not one of the six recognised
types, the dispatch of `execute_plan` returns a failure result whose message
contains the unrecognised type name, and leaves the filesystem unchanged. -/
theorem unknown_action_yields_failure :
    ∀ (eff : Eff) (repoPath : String) (plan : Executor.Plan) (fs : FS) (a : Executor.Action),
      a.type ∉ Executor.knownActionTypes →
      Executor.executeAction eff repoPath plan fs a
          = (⟨false, "Unknown action: " ++ a.type, none⟩, fs) ∧
      a.type.data <:+: ("Unknown action: " ++ a.type).data := by
  intro eff repoPath plan fs a h
  simp only [Executor.knownActionTypes, List.mem_cons, List.not_mem_nil, or_false, not_or] at h
  obtain ⟨h1, h2, h3, h4, h5, h6⟩ := h
  refine ⟨?_, ⟨"Unknown action: ".data, [], by simp [strData_append]⟩⟩
  simp only [Executor.executeAction, if_neg h1, if_neg h2, if_neg h3, if_neg h4, if_neg h5,
    if_neg h6]

/-- Witness for C8 at the unrecognised type `frobnicate`. -/
theorem unknown_action_yields_failure_witness :
    Executor.executeAction ⟨.finished 0 "", .ok, .ok⟩ "/r" ⟨[], "", "", "", ""⟩ []
        ⟨"frobnicate", [], ⟨[]⟩⟩
        = (⟨false, "Unknown action: " ++ "frobnicate", none⟩, []) ∧
      ("frobnicate" : String).data <:+: (("Unknown action: " ++ "frobnicate") : String).data :=
  unknown_action_yields_failure _ _ _ _ _ (by decide)

/-- Claim C9: the `generate_readme` branch of the `execute_plan` dispatch is
a pure no-op — it returns the constant success result `README generation
delegated` and leaves the filesystem (hence any `README.md`) untouched. -/
theorem generate_readme_action_noop :
    ∀ (eff : Eff) (repoPath : String) (plan : Executor.Plan) (fs : FS) (a : Executor.Action),
      a.type = "generate_readme" →
      Executor.executeAction eff repoPath plan fs a
          = (⟨true, "README generation delegated", none⟩, fs) := by
  intro eff repoPath plan fs a h
  simp [Executor.executeAction, h]

/-- Witness for C9 at a concrete `generate_readme` action. -/
theorem generate_readme_action_noop_witness :
    Executor.executeAction ⟨.finished 0 "", .ok, .ok⟩ "/r" ⟨[], "", "", "", ""⟩
        [("/r/README.md", Entry.file "old")] ⟨"generate_readme", [], ⟨[]⟩⟩
        = (⟨true, "README generation delegated", none⟩, [("/r/README.md", Entry.file "old")]) :=
  generate_readme_action_noop _ _ _ _ _ rfl

theorem fsGet_fsSet_ne : ∀ (fs : FS) (p : String) (e : Entry) (q : String), q ≠ p →
    fsGet (fsSet fs p e) q = fsGet fs q := by
  intro fs p e q hne
  induction fs with
  | nil =>
    simp only [fsSet, fsGet]
    rw [if_neg (fun h => hne (Eq.symm h))]
  | cons kv rest ih =>
    obtain ⟨k, v⟩ := kv
    by_cases hk : k = p
    · subst hk
      have : ¬ k = q := fun h => hne (Eq.symm h)
      simp [fsSet, fsGet, this]
    · simp [fsSet, hk, fsGet, ih]

theorem mkdirOne_preserves : ∀ (fs : FS) (d : String) (fs' : FS), mkdirOne fs d = .ok fs' →
    ∀ q e, fsGet fs q = some e → fsGet fs' q = some e := by
  intro fs d fs' h q e hq
  unfold mkdirOne at h
  split at h
  next hd =>
    cases h
    rw [fsGet_fsSet_ne]
    · exact hq
    · intro hqd
      rw [hqd, hd] at hq
      cases hq
  next => cases h; exact hq
  next => cases h

theorem foldlM_mkdirOne_preserves :
    ∀ (l : List String) (fs fs' : FS), l.foldlM mkdirOne fs = .ok fs' →
      ∀ q e, fsGet fs q = some e → fsGet fs' q = some e := by
  intro l
  induction l with
  | nil =>
    intro fs fs' h q e hq
    simp only [List.foldlM_nil] at h
    cases h
    exact hq
  | cons d rest ih =>
    intro fs fs' h q e hq
    rw [List.foldlM_cons] at h
    cases hm : mkdirOne fs d with
    | error err =>
      rw [hm] at h
      exact Except.noConfusion h
    | ok fs1 =>
      rw [hm] at h
      exact ih fs1 fs' h q e (mkdirOne_preserves fs d fs1 hm q e hq)

theorem makedirs_preserves :
    ∀ (fs : FS) (p : String) (fs' : FS), makedirs fs p = .ok fs' →
      ∀ q e, fsGet fs q = some e → fsGet fs' q = some e := by
  intro fs p fs' h
  exact foldlM_mkdirOne_preserves (pathPrefixes p) fs fs' h

theorem rstripSlash_eq_self (l : List Char) (h : l.getLast? ≠ some '/') :
    rstripSlash l = l := by
  unfold rstripSlash
  cases hp : l.reverse with
  | nil =>
    have hl : l = [] := by simpa using congrArg List.reverse hp
    simp [hl]
  | cons c t =>
    have hc : (c == '/') = false := by
      rw [beq_eq_false_iff_ne]
      intro hceq
      apply h
      rw [← List.head?_reverse, hp, hceq]
      rfl
    rw [List.dropWhile_cons, hc]
    simp only [Bool.false_eq_true, if_false]
    simpa using (congrArg List.reverse hp).symm

theorem strip_eq_self_of_not_slash (p : String) (h : endsWith1 p '/' = false) :
    stripTrailSlash p = p := by
  unfold endsWith1 at h
  rw [beq_eq_false_iff_ne] at h
  cases p with
  | mk pd =>
    show String.mk (rstripSlash pd) = String.mk pd
    rw [rstripSlash_eq_self pd h]

theorem fsExistsPath_noslash (fs : FS) (p : String) (h : endsWith1 p '/' = false) :
    fsExistsPath fs p = (fsGet fs p).isSome := by
  unfold fsExistsPath
  rw [strip_eq_self_of_not_slash p h]
  cases hg : fsGet fs p with
  | none => rfl
  | some e =>
    cases e with
    | dir => rfl
    | file c => simp

theorem writeFile_ok_elim :
    ∀ (fs : FS) (p c : String) (fs' : FS), writeFile fs p c = .ok fs' →
      endsWith1 p '/' = false ∧ fs' = fsSet fs p (.file c) := by
  intro fs p c fs' h
  unfold writeFile at h
  split at h
  · cases h
  next hslash =>
    split at h
    · cases h
    · cases h
      exact ⟨by simpa using hslash, rfl⟩

theorem ensure_path_preserves :
    ∀ (fs : FS) (repoPath rel : String) (d : Bool) (fs' : FS),
      Executor.ensure_path fs repoPath rel d = .ok fs' →
      ∀ q e, fsGet fs q = some e → fsGet fs' q = some e := by
  intro fs repoPath rel d fs' h q e hq
  unfold Executor.ensure_path at h
  split at h
  · exact makedirs_preserves _ _ _ h q e hq
  · cases hm : makedirs fs (dirname (osPathJoin repoPath rel)) with
    | error err =>
      rw [hm] at h
      exact Except.noConfusion h
    | ok fs1 =>
      rw [hm] at h
      have h' : (if fsExistsPath fs1 (osPathJoin repoPath rel) = true then
          (pure fs1 : Except String FS)
        else writeFile fs1 (osPathJoin repoPath rel) "") = .ok fs' := h
      clear h
      have hq1 := makedirs_preserves _ _ _ hm q e hq
      split at h'
      · cases h'; exact hq1
      next hex =>
        obtain ⟨hslash, hset⟩ := writeFile_ok_elim _ _ _ _ h'
        subst hset
        rw [fsGet_fsSet_ne]
        · exact hq1
        · intro hqp
          rw [fsExistsPath_noslash fs1 _ hslash] at hex
          rw [hqp] at hq1
          rw [hq1] at hex
          simp at hex

theorem createGo_preserves :
    ∀ (files : List String) (repoPath : String) (fs : FS) (acc : List String) (q : String)
      (e : Entry), fsGet fs q = some e →
      fsGet (Executor.createGo repoPath fs acc files).2 q = some e := by
  intro files
  induction files with
  | nil => intro repoPath fs acc q e hq; simpa [Executor.createGo] using hq
  | cons f rest ih =>
    intro repoPath fs acc q e hq
    unfold Executor.createGo
    cases h : Executor.ensure_path fs repoPath f (endsWith1 f '/') with
    | ok fs' => exact ih repoPath fs' (f :: acc) q e (ensure_path_preserves _ _ _ _ _ h q e hq)
    | error err => simpa using hq

/-- Counterexample to claim C3 as stated: `create_placeholder_files` from
`agent/executor.py` has no existence guard, so invoking it on a path whose
file already exists replaces the content `hello` with the placeholder text. -/
theorem create_placeholder_files_overwrites_existing :
    fsGet [("/r/a.md", Entry.file "hello")] "/r/a.md" = some (Entry.file "hello") ∧
    (ExecMod.create_placeholder_files "/r" [("/r/a.md", Entry.file "hello")] ["a.md"]).map
        (fun fs => fsGet fs "/r/a.md")
      = .ok (some (Entry.file "# Placeholder for a.md\n")) :=
  ⟨rfl, rfl⟩

/-- Claim C3 as amended: placeholder creation through `Executor.ensure_path`
(and hence `Executor.create_placeholders`) is non-destructive — every
existing filesystem binding, in particular an existing file's content, is
left unchanged; `create_placeholder_files` is excluded, since it overwrites
an existing file with the placeholder text. -/
theorem placeholder_creation_preserves_existing :
    (∀ (fs : FS) (repoPath rel : String) (d : Bool) (fs' : FS),
        Executor.ensure_path fs repoPath rel d = .ok fs' →
        ∀ q e, fsGet fs q = some e → fsGet fs' q = some e) ∧
    (∀ (repoPath : String) (fs : FS) (files : List String) (q : String) (e : Entry),
        fsGet fs q = some e →
        fsGet (Executor.create_placeholders repoPath fs files).2 q = some e) :=
  ⟨ensure_path_preserves,
   fun repoPath fs files q e hq => createGo_preserves files repoPath fs [] q e hq⟩

/-- Witness for C3: running `create_placeholders` over an existing file and
a fresh directory keeps the file's original content. -/
theorem placeholder_creation_preserves_existing_witness :
    fsGet (Executor.create_placeholders "/r" [("/r/a.md", Entry.file "hi")]
        ["a.md", "docs/"]).2 "/r/a.md" = some (Entry.file "hi") :=
  placeholder_creation_preserves_existing.2 "/r" [("/r/a.md", Entry.file "hi")]
    ["a.md", "docs/"] "/r/a.md" (Entry.file "hi") rfl

/-- Counterexample to claim C4 as stated: the module-level `git_commit` (and
`git_add_all`) of `agent/executor.py` have no `try/except`, so a
version-control library exception propagates to the caller instead of being
returned as a failure result. -/
theorem module_git_commit_exception_escapes :
    ExecMod.git_commit ⟨.ok (), .ok (), .error "fatal: bad commit", .ok ()⟩
        = .error "fatal: bad commit" ∧
    ExecMod.git_add_all ⟨.error "fatal: not a git repository", .ok (), .ok (), .ok ()⟩
        = .error "fatal: not a git repository" :=
  ⟨rfl, rfl⟩

/-- Claim C4 as amended: every operation of the `Executor` class converts
git, test-runner and email-write failures into an `ExecutionResult` with
`success = false` carrying the error text, and a missing README into a
failure result; the module-level `git_push` of `agent/executor.py` also
catches every failure; but the module-level `git_add_all` and `git_commit`
are excluded, since they let library exceptions escape to the caller. -/
theorem executor_failures_classified :
    (∀ e, Executor.git_commit (.cliError e) = ⟨false, "Git CLI commit failed: " ++ e, none⟩) ∧
    (∀ e, Executor.git_commit (.libError e) = ⟨false, "GitPython commit failed: " ++ e, none⟩) ∧
    (Executor.git_commit .ok = ⟨true, "Git commit complete", none⟩) ∧
    (∀ e, Executor.git_push (.cliError e) = ⟨false, "Git CLI push failed: " ++ e, none⟩) ∧
    (∀ e, Executor.git_push (.libError e) = ⟨false, "GitPython push failed: " ++ e, none⟩) ∧
    (Executor.git_push .ok = ⟨true, "Git push complete", none⟩) ∧
    (∀ (fs : FS) (repo e : String),
        fsExistsPath fs (osPathJoin repo "tests") = true →
        Executor.run_tests (.raised e) fs repo "tests"
          = ⟨false, "Test run failed: " ++ e, none⟩) ∧
    (∀ (fs : FS) (repo : String),
        fsExistsPath fs (osPathJoin repo "README.md") = false →
        Executor.assert_readme_fields fs repo "README.md"
          = .ok ⟨false, "README not found", none⟩) ∧
    (∀ (fs : FS) (repo sn u d ru : String) (rs : List String) (e : String),
        writeFile fs (osPathJoin repo "email_draft.txt")
            (Executor.emailDraftContent sn u d ru rs) = .error e →
        Executor.create_email_draft fs repo sn u d ru rs
          = (⟨false, "Failed to create email draft: " ++ e, none⟩, fs)) ∧
    (∀ g : GitEnv, ExecMod.git_push g = .ok ()) := by
  refine ⟨fun e => rfl, fun e => rfl, rfl, fun e => rfl, fun e => rfl, rfl, ?_, ?_, ?_, ?_⟩
  · intro fs repo e hex
    simp [Executor.run_tests, hex]
  · intro fs repo hex
    simp [Executor.assert_readme_fields, hex]
  · intro fs repo sn u d ru rs e hw
    simp [Executor.create_email_draft, hw]
  · intro g
    unfold ExecMod.git_push
    split <;> rfl

/-- Witness for C4 (amended): a raised test run, a missing README, and a
blocked email write are all classified as failure results on concrete
inputs. -/
theorem executor_failures_classified_witness :
    Executor.run_tests (.raised "boom") [("/r/tests", Entry.dir)] "/r" "tests"
        = ⟨false, "Test run failed: " ++ "boom", none⟩ ∧
    Executor.assert_readme_fields [] "/r" "README.md"
        = .ok ⟨false, "README not found", none⟩ ∧
    Executor.create_email_draft [("/r/email_draft.txt", Entry.dir)] "/r" "S" "U" "D" "u" []
        = (⟨false, "Failed to create email draft: " ++ "IsADirectoryError: /r/email_draft.txt",
            none⟩, [("/r/email_draft.txt", Entry.dir)]) :=
  ⟨executor_failures_classified.2.2.2.2.2.2.1 [("/r/tests", Entry.dir)] "/r" "boom" rfl,
   executor_failures_classified.2.2.2.2.2.2.2.1 [] "/r" rfl,
   executor_failures_classified.2.2.2.2.2.2.2.2.1 [("/r/email_draft.txt", Entry.dir)] "/r"
     "S" "U" "D" "u" [] "IsADirectoryError: /r/email_draft.txt" rfl⟩

theorem splitOnCh_ne_nil (sep : Char) (l : List Char) : splitOnCh sep l ≠ [] := by
  induction l with
  | nil => simp [splitOnCh]
  | cons c t ih =>
    simp only [splitOnCh]
    split
    · simp
    · cases hm : splitOnCh sep t with
      | nil => simp
      | cons l0 ls => simp [hm]

theorem splitOnCh_eval_cons_ne (sep c : Char) (l : List Char) (hc : ¬ c = sep) :
    splitOnCh sep (c :: l)
      = (c :: (splitOnCh sep l).headD []) :: (splitOnCh sep l).tail := by
  simp only [splitOnCh, if_neg hc]
  cases hm : splitOnCh sep l with
  | nil => exact absurd hm (splitOnCh_ne_nil sep l)
  | cons l0 ls => simp [hm]

theorem splitOnCh_eval_cons (sep c : Char) (l : List Char) :
    splitOnCh sep (c :: l)
      = if c = sep then [] :: splitOnCh sep l
        else (c :: (splitOnCh sep l).headD []) :: (splitOnCh sep l).tail := by
  split
  next hc => rw [hc]; simp [splitOnCh]
  next hc => exact splitOnCh_eval_cons_ne sep c l hc

theorem splitOnCh_eval_append (sep : Char) (xs l : List Char) (h : sep ∉ xs) :
    splitOnCh sep (xs ++ l)
      = (xs ++ (splitOnCh sep l).headD []) :: (splitOnCh sep l).tail := by
  induction xs with
  | nil =>
    cases hm : splitOnCh sep l with
    | nil => exact absurd hm (splitOnCh_ne_nil sep l)
    | cons l0 ls => simp [hm]
  | cons c t ih =>
    have hc : ¬ c = sep := by
      intro hce
      exact h (by simp [hce])
    have ht : sep ∉ t := fun hm => h (List.mem_cons_of_mem c hm)
    rw [List.cons_append, splitOnCh_eval_cons_ne sep c _ hc, ih ht]
    simp

/-- Counterexample to claim C7 as stated: the draft built by
`Executor.create_email_draft` puts the recipients line last, so its first
non-empty line is the subject line and does not contain `a@b.com` (which
does occur later in the draft). -/
theorem create_email_draft_first_line_not_recipients :
    strContains (firstNonEmptyLine (Executor.emailDraftContent "S" "U" "D" "http://r" ["a@b.com"]))
        "a@b.com" = false ∧
    strContains (Executor.emailDraftContent "S" "U" "D" "http://r" ["a@b.com"]) "a@b.com" = true :=
  ⟨rfl, rfl⟩

/-- Claim C7 as amended: for every newline-free student name (and arbitrary
university, department, repository URL and deliverables), `generate_email_draft`
called with recipients `["a@b.com"]` yields a draft whose first non-empty line
is exactly `To: a@b.com` and whose second line is the subject line containing
the student name; for `Executor.create_email_draft` the first non-empty line
is instead the subject line, which contains the student name (the recipients
line is the final line of that draft). -/
theorem email_draft_to_line_and_subject :
    ∀ (name u d ru : String) (ds : List String), '\n' ∉ name.data →
      (firstNonEmptyLine (generate_email_draft name u d ru ["a@b.com"] ds) = "To: a@b.com" ∧
       lineAt (generate_email_draft name u d ru ["a@b.com"] ds) 1
          = "Subject: AI Agent Prototype - Deliverables submitted (" ++ name ++ ")" ∧
       name.data <:+: (lineAt (generate_email_draft name u d ru ["a@b.com"] ds) 1).data) ∧
      (firstNonEmptyLine (Executor.emailDraftContent name u d ru ["a@b.com"])
          = "Subject: AI Agent Prototype - Deliverables submitted (" ++ name ++ ")" ∧
       name.data <:+: (firstNonEmptyLine (Executor.emailDraftContent name u d ru ["a@b.com"])).data) := by
  intro name u d ru ds hn
  obtain ⟨nd⟩ := name
  have h : '\n' ∉ nd := hn
  refine ⟨⟨?_, ?_, ?_⟩, ?_, ?_⟩
  · simp only [firstNonEmptyLine, splitLinesCh, generate_email_draft, joinSep, strData_append,
      List.cons_append, List.nil_append, List.append_assoc]
    simp only [splitOnCh_eval_cons, splitOnCh_eval_append, reduceIte, List.headD_cons,
      List.tail_cons, h, not_false_eq_true, List.find?, List.isEmpty_cons, Bool.not_false]
    decide
  · simp only [lineAt, splitLinesCh, generate_email_draft, joinSep, strData_append,
      List.cons_append, List.nil_append, List.append_assoc]
    simp only [splitOnCh_eval_cons, splitOnCh_eval_append, reduceIte, List.headD_cons,
      List.tail_cons, h, not_false_eq_true, List.getD_cons_succ, List.getD_cons_zero]
    apply String.ext
    simp [strData_append, List.append_assoc]
  · simp only [lineAt, splitLinesCh, generate_email_draft, joinSep, strData_append,
      List.cons_append, List.nil_append, List.append_assoc]
    simp only [splitOnCh_eval_cons, splitOnCh_eval_append, reduceIte, List.headD_cons,
      List.tail_cons, h, not_false_eq_true, List.getD_cons_succ, List.getD_cons_zero]
    exact ⟨("Subject: AI Agent Prototype - Deliverables submitted (" : String).data, [')'],
      by simp [List.append_assoc]⟩
  · simp only [firstNonEmptyLine, splitLinesCh, Executor.emailDraftContent, Executor.emailLines,
      joinSep, strData_append, List.cons_append, List.nil_append, List.append_assoc]
    simp only [splitOnCh_eval_cons, splitOnCh_eval_append, reduceIte, List.headD_cons,
      List.tail_cons, h, not_false_eq_true, List.find?, List.isEmpty_cons, Bool.not_false]
    apply String.ext
    simp [strData_append, List.append_assoc]
  · simp only [firstNonEmptyLine, splitLinesCh, Executor.emailDraftContent, Executor.emailLines,
      joinSep, strData_append, List.cons_append, List.nil_append, List.append_assoc]
    simp only [splitOnCh_eval_cons, splitOnCh_eval_append, reduceIte, List.headD_cons,
      List.tail_cons, h, not_false_eq_true, List.find?, List.isEmpty_cons, Bool.not_false]
    exact ⟨("Subject: AI Agent Prototype - Deliverables submitted (" : String).data, [')'],
      by simp [List.append_assoc]⟩

/-- Witness for C7 (amended) at the student name `A`. -/
theorem email_draft_to_line_and_subject_witness :
    firstNonEmptyLine (generate_email_draft "A" "U" "D" "http://r" ["a@b.com"] ["x"])
        = "To: a@b.com" ∧
    lineAt (generate_email_draft "A" "U" "D" "http://r" ["a@b.com"] ["x"]) 1
        = "Subject: AI Agent Prototype - Deliverables submitted (" ++ "A" ++ ")" ∧
    firstNonEmptyLine (Executor.emailDraftContent "A" "U" "D" "http://r" ["a@b.com"])
        = "Subject: AI Agent Prototype - Deliverables submitted (" ++ "A" ++ ")" :=
  ⟨(email_draft_to_line_and_subject "A" "U" "D" "http://r" ["x"] (by decide)).1.1,
   (email_draft_to_line_and_subject "A" "U" "D" "http://r" ["x"] (by decide)).1.2.1,
   (email_draft_to_line_and_subject "A" "U" "D" "http://r" ["x"] (by decide)).2.1⟩

theorem validateRequiredMissing_eq_filter (fs : FS) (repoPath : String) (req : List String) :
    Executor.validateRequiredMissing fs repoPath req
      = req.filter (fun f => !(fsExistsPath fs (osPathJoin repoPath (stripTrailSlash f)))) := by
  induction req with
  | nil => rfl
  | cons f rest ih =>
    simp only [Executor.validateRequiredMissing, List.filter_cons]
    cases h : fsExistsPath fs (osPathJoin repoPath (stripTrailSlash f)) <;> simp [h, ih]

theorem dropWhile_head_false {p : Char → Bool} : ∀ (l : List Char) (c : Char) (t : List Char),
    l.dropWhile p = c :: t → p c = false := by
  intro l
  induction l with
  | nil => intro c t h; cases h
  | cons a l' ih =>
    intro c t h
    rw [List.dropWhile_cons] at h
    split at h
    · exact ih c t h
    next ha =>
      cases h
      simpa using ha

theorem rstripSlash_getLast_ne (l : List Char) (c : Char)
    (h : (rstripSlash l).getLast? = some c) : (c == '/') = false := by
  unfold rstripSlash at h
  rw [List.getLast?_reverse] at h
  cases hd : l.reverse.dropWhile (· == '/') with
  | nil => rw [hd] at h; cases h
  | cons a t =>
    rw [hd] at h
    simp only [List.head?_cons, Option.some.injEq] at h
    subst h
    exact dropWhile_head_false _ a t hd

theorem endsWith1_strip (f : String) : endsWith1 (stripTrailSlash f) '/' = false := by
  show ((rstripSlash f.data).getLast? == some '/') = false
  cases hm : (rstripSlash f.data).getLast? with
  | none => rfl
  | some c =>
    have h2 := rstripSlash_getLast_ne f.data c hm
    simpa using h2

theorem rstripSlash_prefix (l : List Char) : ∃ t, l = rstripSlash l ++ t := by
  refine ⟨(l.reverse.takeWhile (· == '/')).reverse, ?_⟩
  unfold rstripSlash
  rw [← List.reverse_append, List.takeWhile_append_dropWhile, List.reverse_reverse]

theorem headIsSlash_strip (f : String) (hh : headIsSlash f = false)
    (hne : stripTrailSlash f ≠ "") : headIsSlash (stripTrailSlash f) = false := by
  obtain ⟨t, ht⟩ := rstripSlash_prefix f.data
  have hnonempty : rstripSlash f.data ≠ [] := by
    intro h0
    apply hne
    show (⟨rstripSlash f.data⟩ : String) = ""
    rw [h0]
  cases hd : rstripSlash f.data with
  | nil => exact absurd hd hnonempty
  | cons c cs =>
    show (((rstripSlash f.data).headD ' ') == '/') = false
    rw [hd]
    unfold headIsSlash at hh
    rw [ht, hd] at hh
    simpa using hh

theorem rstripSlash_append (xs ys : List Char) (h : rstripSlash ys ≠ []) :
    rstripSlash (xs ++ ys) = xs ++ rstripSlash ys := by
  unfold rstripSlash at h ⊢
  rw [List.reverse_append, List.dropWhile_append]
  have hne : (ys.reverse.dropWhile (· == '/')).isEmpty = false := by
    cases hd : ys.reverse.dropWhile (· == '/') with
    | nil => exact absurd (by rw [hd]; rfl) h
    | cons a t => rfl
  rw [hne]
  simp

theorem stripTrailSlash_join (root f : String) (hne : rstripSlash f.data ≠ []) :
    stripTrailSlash (root ++ "/" ++ f) = root ++ "/" ++ stripTrailSlash f := by
  apply String.ext
  have hL : (root ++ "/" ++ f).data = (root.data ++ ['/']) ++ f.data := by
    simp [strData_append, List.append_assoc]
  show rstripSlash (root ++ "/" ++ f).data = _
  rw [hL, rstripSlash_append _ _ hne]
  have hproj : (stripTrailSlash f).data = rstripSlash f.data := rfl
  simp [strData_append, List.append_assoc, hproj]

theorem ne_strip_of_endsSlash (f : String) (h : endsWith1 f '/' = true) :
    stripTrailSlash f ≠ f := by
  intro he
  have h2 := endsWith1_strip f
  rw [he, h] at h2
  cases h2

theorem osPathJoin_eq (root f : String) (hf : headIsSlash f = false) (hroot : ¬ root = "")
    (hslash : endsWith1 root '/' = false) : osPathJoin root f = root ++ "/" ++ f := by
  unfold osPathJoin
  rw [if_neg (by simp [hf]), if_neg]
  intro hor
  rcases hor with h | h
  · exact hroot h
  · rw [hslash] at h
    cases h

theorem endsWith1_join_strip (root f : String) (hne : rstripSlash f.data ≠ []) :
    endsWith1 (root ++ "/" ++ stripTrailSlash f) '/' = false := by
  unfold endsWith1
  have hdat : (root ++ "/" ++ stripTrailSlash f).data
      = (root.data ++ ['/']) ++ rstripSlash f.data := by
    have hproj : (stripTrailSlash f).data = rstripSlash f.data := rfl
    simp [strData_append, List.append_assoc, hproj]
  rw [hdat, List.getLast?_append_of_ne_nil _ hne]
  exact endsWith1_strip f

theorem fsExistsPath_slash_iff (fs : FS) (root f : String) (hf : endsWith1 f '/' = true)
    (hne : rstripSlash f.data ≠ []) :
    (fsExistsPath fs (root ++ "/" ++ f) = true
      ↔ fsGet fs (root ++ "/" ++ stripTrailSlash f) = some Entry.dir) := by
  unfold fsExistsPath
  rw [stripTrailSlash_join root f hne]
  cases hg : fsGet fs (root ++ "/" ++ stripTrailSlash f) with
  | none => simp
  | some e =>
    cases e with
    | dir => simp
    | file c =>
      have hne2 : root ++ "/" ++ stripTrailSlash f ≠ root ++ "/" ++ f := by
        intro heq
        apply ne_strip_of_endsSlash f hf
        have hd := congrArg String.data heq
        have hd1 : (root.data ++ ['/']) ++ (stripTrailSlash f).data
            = (root.data ++ ['/']) ++ f.data := by
          have e1 : (root ++ "/" ++ stripTrailSlash f).data
              = (root.data ++ ['/']) ++ (stripTrailSlash f).data := by
            simp [strData_append, List.append_assoc]
          have e2 : (root ++ "/" ++ f).data = (root.data ++ ['/']) ++ f.data := by
            simp [strData_append, List.append_assoc]
          rw [← e1, ← e2, hd]
        exact String.ext (List.append_cancel_left hd1)
      simp [beq_iff_eq, hne2]

theorem fsExistsPath_join_strip (fs : FS) (root f : String) (hne : rstripSlash f.data ≠ []) :
    fsExistsPath fs (root ++ "/" ++ stripTrailSlash f)
      = (fsGet fs (root ++ "/" ++ stripTrailSlash f)).isSome :=
  fsExistsPath_noslash fs _ (endsWith1_join_strip root f hne)

/-- Claim C10: `Executor.validate_required` strips trailing `/` separators
before its existence check, so a required path ending in `/` is reported
present exactly when any entry — directory or regular file — exists at the
name without the slash; the planner's `analyze_deliverables` keeps the
slash, so the same path is reported existing exactly when a directory is at
that stripped name. -/
theorem validate_required_strips_trailing_slash :
    ∀ (fs : FS) (root : String) (req : List String) (f : String),
      endsWith1 f '/' = true →
      headIsSlash f = false →
      stripTrailSlash f ≠ "" →
      ¬ root = "" →
      endsWith1 root '/' = false →
      f ∈ req →
      ((f ∉ Executor.missingOf (Executor.validate_required fs root req)
          ↔ (fsGet fs (root ++ "/" ++ stripTrailSlash f)).isSome = true) ∧
       (f ∈ (DeliverablePlanner.analyze_deliverables fs root req).existing
          ↔ fsGet fs (root ++ "/" ++ stripTrailSlash f) = some Entry.dir)) := by
  intro fs root req f hf hh hne hroot hrslash hmem
  have hnelist : rstripSlash f.data ≠ [] := by
    intro h0
    apply hne
    show (⟨rstripSlash f.data⟩ : String) = ""
    rw [h0]
  have hjoin1 : osPathJoin root (stripTrailSlash f) = root ++ "/" ++ stripTrailSlash f :=
    osPathJoin_eq root _ (headIsSlash_strip f hh hne) hroot hrslash
  have hjoin2 : osPathJoin root f = root ++ "/" ++ f :=
    osPathJoin_eq root f hh hroot hrslash
  have hpred : fsExistsPath fs (osPathJoin root (stripTrailSlash f))
      = (fsGet fs (root ++ "/" ++ stripTrailSlash f)).isSome := by
    rw [hjoin1, fsExistsPath_join_strip fs root f hnelist]
  have hpred2 : fsExistsPath fs (osPathJoin root f) = true
      ↔ fsGet fs (root ++ "/" ++ stripTrailSlash f) = some Entry.dir := by
    rw [hjoin2]
    exact fsExistsPath_slash_iff fs root f hf hnelist
  constructor
  · have hmiss : Executor.missingOf (Executor.validate_required fs root req)
        = Executor.validateRequiredMissing fs root req := rfl
    rw [hmiss, validateRequiredMissing_eq_filter]
    constructor
    · intro hnot
      by_contra hsome
      apply hnot
      rw [List.mem_filter]
      refine ⟨hmem, ?_⟩
      show (!fsExistsPath fs (osPathJoin root (stripTrailSlash f))) = true
      rw [hpred]
      cases hs : (fsGet fs (root ++ "/" ++ stripTrailSlash f)).isSome with
      | false => rfl
      | true => exact absurd hs hsome
    · intro hsome hmemf
      rw [List.mem_filter] at hmemf
      have h2 : (!fsExistsPath fs (osPathJoin root (stripTrailSlash f))) = true := hmemf.2
      rw [hpred, hsome] at h2
      simp at h2
  · rw [(analyze_deliverables_filter fs root req).1, List.mem_filter]
    constructor
    · intro hx
      exact hpred2.1 hx.2
    · intro hdir
      exact ⟨hmem, hpred2.2 hdir⟩

/-- Witness for C10: with a regular file at `r/d`, the required path `d/` is
reported present by `validate_required` but missing (not existing) by
`analyze_deliverables`. -/
theorem validate_required_strips_trailing_slash_witness :
    (("d/" ∉ Executor.missingOf (Executor.validate_required [("r/d", Entry.file "z")] "r" ["d/"])
        ↔ (fsGet [("r/d", Entry.file "z")] ("r" ++ "/" ++ stripTrailSlash "d/")).isSome = true) ∧
     ("d/" ∈ (DeliverablePlanner.analyze_deliverables [("r/d", Entry.file "z")] "r" ["d/"]).existing
        ↔ fsGet [("r/d", Entry.file "z")] ("r" ++ "/" ++ stripTrailSlash "d/") = some Entry.dir)) :=
  validate_required_strips_trailing_slash [("r/d", Entry.file "z")] "r" ["d/"] "d/"
    (by decide) (by decide) (by decide) (by decide) (by decide) (by decide)

theorem digitVal_digitChar : ∀ k, k < 10 → digitVal (digitChar k) = k := by decide

theorem isDig_digitChar : ∀ k, k < 10 → isDigCh (digitChar k) = true := by decide

theorem digitChar_ne_zero : ∀ k, k < 10 → 1 ≤ k → ¬ digitChar k = '0' := by decide

theorem charsVal_append_digit (xs : List Char) (c : Char) :
    charsVal (xs ++ [c]) = 10 * charsVal xs + digitVal c := by
  unfold charsVal
  rw [List.foldl_append]
  rfl

theorem charsVal_natChars : ∀ n, charsVal (natChars n) = n := by
  intro n
  induction n using Nat.strong_induction_on with
  | _ n ih =>
    rw [natChars]
    split
    next h =>
      show charsVal [digitChar n] = n
      show 10 * 0 + digitVal (digitChar n) = n
      rw [digitVal_digitChar n h]
      omega
    next h =>
      rw [charsVal_append_digit, ih (n / 10) (Nat.div_lt_self (by omega) (by omega)),
        digitVal_digitChar (n % 10) (Nat.mod_lt n (by omega))]
      omega

theorem natChars_inj (m n : Nat) (h : natChars m = natChars n) : m = n := by
  rw [← charsVal_natChars m, ← charsVal_natChars n, h]

theorem natChars_digits : ∀ n c, c ∈ natChars n → isDigCh c = true := by
  intro n
  induction n using Nat.strong_induction_on with
  | _ n ih =>
    intro c hc
    rw [natChars] at hc
    split at hc
    next h =>
      rw [List.mem_singleton] at hc
      rw [hc]
      exact isDig_digitChar n h
    next h =>
      rcases List.mem_append.1 hc with hc | hc
      · exact ih (n / 10) (Nat.div_lt_self (by omega) (by omega)) c hc
      · rw [List.mem_singleton] at hc
        rw [hc]
        exact isDig_digitChar (n % 10) (Nat.mod_lt n (by omega))

theorem natChars_head_ne_zero : ∀ n, 1 ≤ n → ∃ c cs, natChars n = c :: cs ∧ ¬ c = '0' := by
  intro n
  induction n using Nat.strong_induction_on with
  | _ n ih =>
    intro h1
    rw [natChars]
    split
    next h =>
      exact ⟨digitChar n, [], rfl, digitChar_ne_zero n h h1⟩
    next h =>
      obtain ⟨c, cs, hc, hne⟩ := ih (n / 10) (Nat.div_lt_self (by omega) (by omega)) (by omega)
      refine ⟨c, cs ++ [digitChar (n % 10)], ?_, hne⟩
      rw [hc]
      rfl

theorem fmt02_inj (i j : Nat) (hi : 1 ≤ i) (hj : 1 ≤ j) (h : fmt02 i = fmt02 j) : i = j := by
  unfold fmt02 at h
  by_cases h1 : i < 10 <;> by_cases h2 : j < 10
  · rw [if_pos h1, if_pos h2] at h
    injection h with _ h'
    exact natChars_inj _ _ h'
  · rw [if_pos h1, if_neg h2] at h
    obtain ⟨c, cs, hc, hne⟩ := natChars_head_ne_zero j hj
    rw [hc] at h
    injection h with h0 _
    exact absurd h0.symm hne
  · rw [if_neg h1, if_pos h2] at h
    obtain ⟨c, cs, hc, hne⟩ := natChars_head_ne_zero i hi
    rw [hc] at h
    injection h with h0 _
    exact absurd h0 hne
  · rw [if_neg h1, if_neg h2] at h
    exact natChars_inj _ _ h

theorem fmt02_digits (i : Nat) (c : Char) (hc : c ∈ fmt02 i) : isDigCh c = true := by
  unfold fmt02 at hc
  split at hc
  · rcases List.mem_cons.1 hc with hc | hc
    · rw [hc]; decide
    · exact natChars_digits i c hc
  · exact natChars_digits i c hc

theorem digits_underscore_cancel :
    ∀ (xs ys t s : List Char), (∀ c ∈ xs, isDigCh c = true) → (∀ c ∈ ys, isDigCh c = true) →
      xs ++ '_' :: t = ys ++ '_' :: s → xs = ys ∧ t = s := by
  intro xs
  induction xs with
  | nil =>
    intro ys t s hx hy h
    cases ys with
    | nil =>
      injection h with _ h1
      exact ⟨rfl, h1⟩
    | cons y ys' =>
      injection h with h0 _
      have hd := hy y (List.mem_cons_self y ys')
      rw [← h0] at hd
      exact absurd hd (by decide)
  | cons x xs' ih =>
    intro ys t s hx hy h
    cases ys with
    | nil =>
      injection h with h0 _
      have hd := hx x (List.mem_cons_self x xs')
      rw [h0] at hd
      exact absurd hd (by decide)
    | cons y ys' =>
      injection h with h0 h1
      obtain ⟨hxy, hts⟩ := ih ys' t s (fun c hc => hx c (List.mem_cons_of_mem x hc))
        (fun c hc => hy c (List.mem_cons_of_mem y hc)) h1
      exact ⟨by rw [h0, hxy], hts⟩

theorem keyStr_inj_idx (i j : Nat) (t s : String) (hi : 1 ≤ i) (hj : 1 ≤ j)
    (h : keyStr i t = keyStr j s) : i = j := by
  have hd : fmt02 i ++ '_' :: t.data = fmt02 j ++ '_' :: s.data := congrArg String.data h
  obtain ⟨h1, _⟩ := digits_underscore_cancel _ _ _ _ (fun c hc => fmt02_digits i c hc)
    (fun c hc => fmt02_digits j c hc) hd
  exact fmt02_inj i j hi hj h1

theorem planKeysFrom_mem : ∀ (l : List Executor.Action) (j : Nat) (s : String),
    s ∈ Executor.planKeysFrom j l → ∃ k t, j ≤ k ∧ s = keyStr k t := by
  intro l
  induction l with
  | nil => intro j s h; cases h
  | cons a rest ih =>
    intro j s h
    rcases List.mem_cons.1 h with h | h
    · exact ⟨j, a.type, Nat.le_refl j, h⟩
    · obtain ⟨k, t, hk, hs⟩ := ih (j + 1) s h
      exact ⟨k, t, by omega, hs⟩

theorem dictInsert_fresh : ∀ (dd : Executor.Dict) (k : String) (v : ExecutionResult),
    k ∉ Executor.dictKeys dd → Executor.dictInsert dd k v = dd ++ [(k, v)] := by
  intro dd
  induction dd with
  | nil => intro k v h; rfl
  | cons kv rest ih =>
    intro k v h
    obtain ⟨k', v'⟩ := kv
    simp only [Executor.dictKeys, List.map_cons, List.mem_cons, not_or] at h
    obtain ⟨h1, h2⟩ := h
    have hk : ¬ k' = k := fun he => h1 (Eq.symm he)
    simp only [Executor.dictInsert]
    rw [if_neg hk, ih k v h2]
    rfl

theorem runGo_eq_planResults :
    ∀ (actions : List Executor.Action) (env : Nat → Eff) (repoPath : String)
      (plan : Executor.Plan) (i : Nat) (dict : Executor.Dict) (fs : FS),
      1 ≤ i →
      (∀ s ∈ Executor.dictKeys dict, ∃ k t, 1 ≤ k ∧ k < i ∧ s = keyStr k t) →
      Executor.runGo env repoPath plan i dict fs actions
        = (dict ++ (Executor.planResultsFrom env repoPath plan i fs actions).1,
           (Executor.planResultsFrom env repoPath plan i fs actions).2) := by
  intro actions
  induction actions with
  | nil =>
    intro env repoPath plan i dict fs hi hinv
    simp [Executor.runGo, Executor.planResultsFrom]
  | cons a rest ih =>
    intro env repoPath plan i dict fs hi hinv
    have hfresh : keyStr i a.type ∉ Executor.dictKeys dict := by
      intro hmem
      obtain ⟨k, t, hk1, hk2, hs⟩ := hinv _ hmem
      have hik : k = i := keyStr_inj_idx k i t a.type hk1 hi hs.symm
      omega
    have hinv' : ∀ s ∈ Executor.dictKeys (dict ++ [(keyStr i a.type,
        (Executor.executeAction (env i) repoPath plan fs a).1)]),
        ∃ k t, 1 ≤ k ∧ k < i + 1 ∧ s = keyStr k t := by
      intro s hs
      simp only [Executor.dictKeys, List.map_append, List.map_cons, List.map_nil] at hs
      rcases List.mem_append.1 hs with hs | hs
      · obtain ⟨k, t, hk1, hk2, hst⟩ := hinv s hs
        exact ⟨k, t, hk1, by omega, hst⟩
      · rw [List.mem_singleton] at hs
        exact ⟨i, a.type, hi, by omega, hs⟩
    simp only [Executor.runGo, Executor.planResultsFrom]
    rw [dictInsert_fresh _ _ _ hfresh,
      ih env repoPath plan (i + 1) _ _ (by omega) hinv']
    simp [List.append_assoc]

theorem planResultsFrom_fst : ∀ (l : List Executor.Action) (env : Nat → Eff)
    (repoPath : String) (plan : Executor.Plan) (i : Nat) (fs : FS),
    (Executor.planResultsFrom env repoPath plan i fs l).1.map Prod.fst
      = Executor.planKeysFrom i l := by
  intro l
  induction l with
  | nil => intro env repoPath plan i fs; rfl
  | cons a rest ih =>
    intro env repoPath plan i fs
    simp only [Executor.planResultsFrom, Executor.planKeysFrom, List.map_cons,
      List.cons.injEq, true_and]
    exact ih env repoPath plan (i + 1) _

theorem planResultsFrom_length : ∀ (l : List Executor.Action) (env : Nat → Eff)
    (repoPath : String) (plan : Executor.Plan) (i : Nat) (fs : FS),
    (Executor.planResultsFrom env repoPath plan i fs l).1.length = l.length := by
  intro l
  induction l with
  | nil => intro env repoPath plan i fs; rfl
  | cons a rest ih =>
    intro env repoPath plan i fs
    simp only [Executor.planResultsFrom, List.length_cons]
    rw [ih env repoPath plan (i + 1) _]

/-- Claim C1: `execute_plan` equals the reference walk `planResultsFrom`,
which dispatches every action exactly once, in input order, threading the
filesystem through regardless of failures; consequently the results mapping
has exactly one entry per action, keyed in input order by the synthetic
`{i:02d}_{type}` label (the index prefix makes all keys distinct, so no
dict entry is ever overwritten). -/
theorem execute_plan_one_result_per_action :
    ∀ (env : Nat → Eff) (repoPath : String) (fs : FS) (plan : Executor.Plan),
      Executor.execute_plan env repoPath fs plan
          = Executor.planResultsFrom env repoPath plan 1 fs plan.actions ∧
      (Executor.execute_plan env repoPath fs plan).1.map Prod.fst
          = Executor.planKeysFrom 1 plan.actions ∧
      (Executor.execute_plan env repoPath fs plan).1.length = plan.actions.length := by
  intro env repoPath fs plan
  have h := runGo_eq_planResults plan.actions env repoPath plan 1 [] fs (by omega)
    (by intro s hs; simp [Executor.dictKeys] at hs)
  have hmain : Executor.execute_plan env repoPath fs plan
      = Executor.planResultsFrom env repoPath plan 1 fs plan.actions := by
    show Executor.runGo env repoPath plan 1 [] fs plan.actions = _
    rw [h]
    simp
  refine ⟨hmain, ?_, ?_⟩
  · rw [hmain, planResultsFrom_fst]
  · rw [hmain, planResultsFrom_length]
